import Mathlib

/-!
Verification of the dataplexutils metadata wizard core.

Shallow embedding of the draft/review/publish lifecycle, the batch
generation-strategy orchestrator and the description merge policy of the
`dataplexutils` metadata wizard, translated from
`src/package/dataplexutils/metadata/wizard.py`,
`src/package/dataplexutils/metadata/table_operations.py` and
`src/package/dataplexutils/metadata/dataplex_operations.py`.

Python strings are modelled as Lean `String`; the untyped aspect payload
dictionaries (proto `Struct` values mutated via `dict.update`) are modelled
as association lists `List (String × JValue)` with first-occurrence update.
External collaborators (BigQuery, the Dataplex catalog, the text-generation
port and the wall clock) are modelled as explicit state and parameters.
-/

namespace Dataplexutils

/-! ## Python string primitives

`leadMatch pat s` is true when `pat` is an initial segment of `s`;
`subIdx pat s` is `some i` when `i` is the smallest index at which `pat`
occurs inside `s` (the value computed by Python `str.index`), and `none`
when there is no occurrence (Python `str.index` raises `ValueError`);
`countOccur pat s` counts every (possibly overlapping) occurrence of `pat`
inside `s`. -/

def leadMatch : List Char → List Char → Bool
  | [], _ => true
  | _ :: _, [] => false
  | p :: ps, c :: cs => p == c && leadMatch ps cs

def subIdx (pat : List Char) : List Char → Option Nat
  | [] => if leadMatch pat [] then some 0 else none
  | c :: cs =>
    if leadMatch pat (c :: cs) then some 0
    else (subIdx pat cs).map (· + 1)

def countOccur (pat : List Char) : List Char → Nat
  | [] => if leadMatch pat [] then 1 else 0
  | c :: cs => (if leadMatch pat (c :: cs) then 1 else 0) + countOccur pat cs

/-- Python substring test `pat in s`. -/
def containsSub (pat s : List Char) : Bool := (subIdx pat s).isSome

/-- Number of occurrences of the substring `pat` inside the string `s`. -/
def countOccurS (pat s : String) : Nat := countOccur pat.data s.data

/-- Python string comparison `a <= b`: lexicographic over code points. -/
def lexLe : List Char → List Char → Bool
  | [], _ => true
  | _ :: _, [] => false
  | a :: as, b :: bs =>
    if a.toNat < b.toNat then true
    else if b.toNat < a.toNat then false
    else lexLe as bs

/-- Python `a <= b` on strings. -/
def strLe (a b : String) : Bool := lexLe a.data b.data

/-! ## Constants

`constants.toml` is loaded at run time by the package
(`constants = toml.loads(pkgutil.get_data(__name__, "constants.toml")...)`)
but the file itself is not part of the sources under verification, so the
constant values are modelled from the spec. -/

/-- Modelled from the spec: `constants.toml` (missing from the sources) holds
`constants["OUTPUT_CLAUSES"]["AI_WARNING"]`, the "known disclaimer marker"
prepended to every generated description. Its exact text is immaterial to the
theorems below; it is modelled as an opaque non-empty literal. -/
def AI_WARNING : String := "===AI generated description==="

/-- Modelled from the spec: `constants["DESCRIPTION_HANDLING"]["APPEND"]`.
The three merge-policy literals are distinct strings. -/
def DH_APPEND : String := "APPEND"

/-- Modelled from the spec: `constants["DESCRIPTION_HANDLING"]["PREPEND"]`. -/
def DH_PREPEND : String := "PREPEND"

/-- Modelled from the spec: `constants["DESCRIPTION_HANDLING"]["REPLACE"]`. -/
def DH_REPLACE : String := "REPLACE"

/-! ## DescriptionMerger -/

/-- Translation of `Client._combine_description` (wizard.py 2569-2589).

```python
def _combine_description(self, old_description, new_description, description_handling):
    if not new_description:
        return old_description
    if description_handling == constants["DESCRIPTION_HANDLING"]["APPEND"]:
        if old_description:
            try:
                index = old_description.index(constants["OUTPUT_CLAUSES"]["AI_WARNING"])
                return old_description[:index] + new_description
            except ValueError:
                return old_description + new_description
        return new_description
    elif description_handling == constants["DESCRIPTION_HANDLING"]["PREPEND"]:
        return new_description + old_description
    elif description_handling == constants["DESCRIPTION_HANDLING"]["REPLACE"]:
        return new_description
    else:
        return old_description
```
-/
def combine_description (old_description new_description description_handling : String) :
    String :=
  if new_description = "" then old_description
  else if description_handling = DH_APPEND then
    if old_description ≠ "" then
      match subIdx AI_WARNING.data old_description.data with
      | some index => String.mk (old_description.data.take index) ++ new_description
      | none => old_description ++ new_description
    else new_description
  else if description_handling = DH_PREPEND then new_description ++ old_description
  else if description_handling = DH_REPLACE then new_description
  else old_description

/-- The part of the old description that the APPEND branch of
`_combine_description` keeps: everything strictly before the first occurrence
of the disclaimer marker (`old_description[:index]`), or all of
`old_description` when the marker is absent. -/
def keptOld (old : String) : String :=
  match subIdx AI_WARNING.data old.data with
  | some index => String.mk (old.data.take index)
  | none => old

/-- No occurrence of `pat` straddles the junction of `A ++ Z`: no nonempty
suffix `u` of `A` has `pat` as an initial segment of `u ++ Z`. -/
def noStraddleB (pat A Z : List Char) : Bool :=
  A.tails.all (fun u => decide (u = []) || !(leadMatch pat (u ++ Z)))

/-! ## Aspect payloads

The source keeps aspect payloads as untyped proto `Struct` key/value records
(`aspect.data`), holding strings, booleans and lists, mutated with
`data.update({...})` / item assignment. `JValue` models the dynamic values;
an aspect payload is an association list with unique keys, updated in place
(`setKey` rewrites the first binding of a key, appending fresh keys at the
end, like a Python dict / proto Struct). -/

inductive JValue where
  | s : String → JValue
  | b : Bool → JValue
  | arr : List JValue → JValue

abbrev AspectData := List (String × JValue)

def setKey : AspectData → String → JValue → AspectData
  | [], k, v => [(k, v)]
  | (k0, v0) :: rest, k, v =>
    if k0 = k then (k, v) :: rest else (k0, v0) :: setKey rest k v

def getKey : AspectData → String → Option JValue
  | [], _ => none
  | (k0, v0) :: rest, k => if k0 = k then some v0 else getKey rest k

/-- Python `data.update(upd)`: set every binding of `upd` in order. -/
def updateMap (m : AspectData) (upd : AspectData) : AspectData :=
  upd.foldl (fun acc p => setKey acc p.1 p.2) m

/-! ## Catalog / warehouse state for one table entry

All lifecycle operations are addressed to a single table (`table_fqn`); the
relevant external state for one table entry is:
* the draft aspect `{project}.global.{ASPECT_TEMPLATE.name}` with `path == ""`
  (`none` when the aspect does not exist yet),
* the `dataplex-types.global.overview` aspect (its `"content"` field),
* the BigQuery table description (`table.description`, nullable). -/

structure EntryState where
  draftAspect : Option AspectData
  overviewContent : Option String
  bqDescription : Option String

/-- Translation of `Client._update_table_bq_description` (wizard.py
1405-1423): reads the
current description (`table.description or ""`), merges the new one with
`_combine_description` under the configured handling and writes it back. -/
def update_table_bq_description (description_handling description : String)
    (st : EntryState) : EntryState :=
  let existing_description := st.bqDescription.getD ""
  let combined_description :=
    combine_description existing_description description description_handling
  { st with bqDescription := some combined_description }

/-- Translation of `Client._update_table_dataplex_description` (wizard.py
1862-1941): reads
the existing overview aspect content if present, merges via
`_combine_description`, and writes the overview aspect. -/
def update_table_dataplex_description (description_handling description : String)
    (st : EntryState) : EntryState :=
  match st.overviewContent with
  | some old_description =>
      let combined := combine_description old_description description description_handling
      { st with overviewContent := some combined }
  | none => { st with overviewContent := some description }

/-- The fresh aspect payload `new_aspect_content` built by
`Client._update_table_draft_description` (wizard.py 2109-2118); note the
hard-coded placeholder values used on the create path. -/
def freshDraftAspectContent (description : String) : AspectData :=
  [("certified", JValue.s "false"),
   ("user-who-certified", JValue.s "John Doe"),
   ("contents", JValue.s description),
   ("generation-date", JValue.s "2023-06-15T10:00:00Z"),
   ("to-be-regenerated", JValue.s "false"),
   ("human-comments", JValue.arr []),
   ("negative-examples", JValue.arr []),
   ("external-document-uri", JValue.s "gs://example.com/document")]

/-- Translation of `Client._update_table_draft_description` (wizard.py
2093-2178): if the
draft aspect already exists (loop at 2144-2155) its payload is kept and only
`contents`, `generation-date` and `to-be-regenerated` are updated
(`new_aspect.data.update({...})`); otherwise the fresh payload is written.
`now` stands for `datetime.datetime.now().strftime(...)`. -/
def update_table_draft_description (now description : String) (st : EntryState) :
    EntryState :=
  match st.draftAspect with
  | some old =>
      let newData := updateMap old
        [("contents", JValue.s description),
         ("generation-date", JValue.s now),
         ("to-be-regenerated", JValue.s "false")]
      { st with draftAspect := some newData }
  | none => { st with draftAspect := some (freshDraftAspectContent description) }

/-- Translation of `Client.mark_table_for_regeneration` (wizard.py
2964-3030): when the draft
aspect exists it sets `to-be-regenerated` to boolean `True` and refreshes
`generation-date`, then returns `True`; when no aspect is found it logs a
warning and returns `False` (the surrounding `try` also converts any raised
error into `False`), leaving the state unchanged. -/
def mark_table_for_regeneration (now : String) (st : EntryState) :
    Bool × EntryState :=
  match st.draftAspect with
  | some old =>
      let newData := updateMap old
        [("to-be-regenerated", JValue.b true),
         ("generation-date", JValue.s now)]
      (true, { st with draftAspect := some newData })
  | none => (false, st)

/-- Translation of `Client.accept_table_draft_description` (wizard.py
1425-1463): reads the
draft aspect `contents` into `overview`, then calls
`_update_table_dataplex_description` and `_update_table_bq_description` with
it. When no draft aspect (or no `contents` string) exists the Python code
raises (`overview` is unbound), modelled as `none`. The draft aspect itself
is never written. -/
def accept_table_draft_description (description_handling : String)
    (st : EntryState) : Option EntryState :=
  match st.draftAspect with
  | none => none
  | some data =>
    match getKey data "contents" with
    | some (JValue.s overview) =>
        let st1 := update_table_dataplex_description description_handling overview st
        let st2 := update_table_bq_description description_handling overview st1
        some st2
    | _ => none

/-! ## Client options and table generation -/

/-- The fields of `ClientOptions` (wizard.py 202-233) read by the modelled
operations. The remaining flags (`use_lineage_tables`, `use_profile`, …) only
select additional inputs folded into the text-generation prompt, which is
abstracted into the `llmText` parameter below. Defaults as in the source. -/
structure ClientOptions where
  stage_for_review : Bool := false
  add_ai_warning : Bool := true
  persist_to_dataplex_catalog : Bool := true
  regenerate : Bool := false
  description_handling : String := DH_APPEND

/-- Translation of `Client.generate_table_description` (wizard.py 455-545).
The schema /
sample / profile / lineage gathering and prompt formatting only build the
prompt handed to `_llm_inference`; the text returned by the generation port
is the parameter `llmText`. The function unconditionally generates: it
prepends the AI warning when configured (line 527-528), then either updates
the BigQuery description (and optionally the Dataplex overview), or — in
staging mode — overwrites the draft aspect via
`_update_table_draft_description`. It returns the constant success string. -/
def generate_table_description (opts : ClientOptions) (llmText now : String)
    (st : EntryState) : String × EntryState :=
  let table_description :=
    if opts.add_ai_warning then AI_WARNING ++ llmText else llmText
  if !opts.stage_for_review then
    let st1 := update_table_bq_description opts.description_handling
      table_description st
    let st2 :=
      if opts.persist_to_dataplex_catalog then
        update_table_dataplex_description opts.description_handling
          table_description st1
      else st1
    ("Table description generated successfully", st2)
  else
    ("Table description generated successfully",
     update_table_draft_description now table_description st)

/-! ## GenerationStrategyOrchestrator -/

/-- Modelled from the spec: `constants["GENERATION_STRATEGY"]` (in the missing
`constants.toml`) maps the five accepted strategy literals to distinct values;
the orchestrator compares the resolved value against those constants. -/
inductive GenerationStrategy where
  | NAIVE
  | RANDOM
  | ALPHABETICAL
  | DOCUMENTED
  | DOCUMENTED_THEN_REST
deriving DecidableEq

/-- Translation of `Client._order_tables_to_strategy` (wizard.py 704-715,
and the identical
`TableOperations._order_tables_to_strategy`, table_operations.py 265-284).
`random.shuffle` draws from an unseeded global generator; the shuffle outcome
is abstracted as the `shuffle` parameter applied to `tables.copy()`. -/
def order_tables_to_strategy (shuffle : List String → List String)
    (tables : List String) (strategy : GenerationStrategy) : List String :=
  if strategy = GenerationStrategy.NAIVE then tables
  else if strategy = GenerationStrategy.RANDOM then shuffle tables
  else if strategy = GenerationStrategy.ALPHABETICAL then tables.mergeSort strLe
  else tables

/-- Python `str(tuple)` for a pair of strings, as interpolated into the
`ValueError` message `f"Table {table} not found in dataset {dataset_fqn}."`
(`table` is the `(fqn, uri)` row read from the CSV). -/
def pyReprPair (a b : String) : String :=
  let q := String.singleton (Char.ofNat 39)
  "(" ++ q ++ a ++ q ++ ", " ++ q ++ b ++ q ++ ")"

/-- The error message raised at wizard.py 326 / table_operations.py 96. -/
def documentedMissingMsg (dataset_fqn t u : String) : String :=
  "Table " ++ pyReprPair t u ++ " not found in dataset " ++ dataset_fqn ++ "."

/-- The `DOCUMENTED` branch of
`Client.generate_dataset_tables_descriptions` in initial mode
(wizard.py 321-328; identically table_operations.py 91-97):

```python
tables_from_uri = self._get_tables_from_uri(documentation_csv_uri)
if not self._client_options._regenerate:
    for table in tables_from_uri:
        if table[0] not in tables:
            raise ValueError(f"Table {table} not found in dataset {dataset_fqn}.")
        self.generate_table_description(table[0], table[1])
```

Returns the `(table_fqn, documentation_uri)` pairs handed to
`generate_table_description`, in call order, together with the message of the
`ValueError` that aborted the loop, if any. -/
def documented_initial (dataset_fqn : String) (tables : List String)
    (tables_from_uri : List (String × String)) :
    List (String × String) × Option String :=
  match tables_from_uri with
  | [] => ([], none)
  | (t, u) :: rest =>
    if tables.contains t then
      let r := documented_initial dataset_fqn tables rest
      ((t, u) :: r.1, r.2)
    else ([], some (documentedMissingMsg dataset_fqn t u))

/-! ## Text-generation retry loop -/

/-- Constant `retries=3` (wizard.py 1335). -/
def llmRetries : Nat := 3

/-- Constant `base_delay=1` (wizard.py 1336). -/
def llmBaseDelay : Nat := 1

/-- The body of `Client._llm_inference` (wizard.py 1334-1381), one loop
iteration per `attempt`; `call attempt` is the outcome of the external
text-generation invocation on that attempt. `fuel` counts the remaining
iterations of `for attempt in range(retries+1)` after the current one, so
`fuel = 0` is the final attempt (`attempt == retries`), where the exception
is re-raised. Returns the overall outcome and the list of
`time.sleep(base_delay * (2 ** attempt))` delays performed. -/
def llmGo (call : Nat → Except String String) (attempt : Nat) :
    Nat → Except String String × List Nat
  | 0 =>
    (match call attempt with
     | Except.ok text => Except.ok text
     | Except.error e => Except.error e, [])
  | fuel + 1 =>
    match call attempt with
    | Except.ok text => (Except.ok text, [])
    | Except.error _ =>
      let r := llmGo call (attempt + 1) fuel
      (r.1, llmBaseDelay * 2 ^ attempt :: r.2)

/-- Translation of `Client._llm_inference` (wizard.py 1334-1381): run the
loop from
`attempt = 0` with `retries` further iterations available. -/
def llm_inference (call : Nat → Except String String) :
    Except String String × List Nat :=
  llmGo call 0 llmRetries

/-! ## Basic lemmas about the embedding -/

theorem strData_append (a b : String) : (a ++ b).data = a.data ++ b.data := rfl

theorem strMk_data (l : List Char) : (String.mk l).data = l := rfl

theorem strEq_empty_iff (s : String) : s = "" ↔ s.data = [] := by
  constructor
  · intro h
    rw [h]
  · intro h
    exact String.ext h

theorem getKey_setKey_self (m : AspectData) (k : String) (v : JValue) :
    getKey (setKey m k v) k = some v := by
  induction m with
  | nil => simp [setKey, getKey]
  | cons p rest ih =>
    by_cases h : p.1 = k
    · simp [setKey, getKey, h]
    · simp only [setKey, getKey, h, if_false, ite_false]
      simp [getKey, h, ih]

theorem getKey_setKey_ne (m : AspectData) (k : String) (v : JValue) (q : String)
    (h : q ≠ k) : getKey (setKey m k v) q = getKey m q := by
  induction m with
  | nil => simp [setKey, getKey, h, Ne.symm h]
  | cons p rest ih =>
    by_cases hp : p.1 = k
    · simp [setKey, getKey, hp, h, Ne.symm h]
    · by_cases hq : p.1 = q
      · simp [setKey, getKey, hp, hq, h, Ne.symm h]
      · simp [setKey, getKey, hp, hq, ih]

/-- Re-setting a key to the value it already holds leaves the record
unchanged. -/
theorem setKey_already (m : AspectData) (k : String) (v : JValue)
    (h : getKey m k = some v) : setKey m k v = m := by
  induction m with
  | nil => simp [getKey] at h
  | cons p rest ih =>
    by_cases hp : p.1 = k
    · simp only [getKey, hp, if_pos] at h
      obtain ⟨k0, v0⟩ := p
      simp only at hp
      subst hp
      injection h with h
      subst h
      simp [setKey]
    · simp only [getKey, hp, ite_false, if_false] at h
      simp [setKey, hp, ih h]

/-! ## Claim C9 -/

/-- C9: for every old description string and every merge policy among APPEND,
PREPEND and REPLACE, `_combine_description(old, "", policy) == old`: an empty
new description leaves the old description unchanged (wizard.py 2570-2571
returns `old_description` whenever `new_description` is falsy, before any
policy dispatch). -/
theorem combine_empty_new_claim (old : String) :
    combine_description old "" DH_APPEND = old ∧
    combine_description old "" DH_PREPEND = old ∧
    combine_description old "" DH_REPLACE = old := by
  refine ⟨?_, ?_, ?_⟩ <;> simp [combine_description]

/-! ## Claim C10 -/

/-- C10: for every old string and non-empty new string, a
`description_handling` value that is none of APPEND, PREPEND, REPLACE makes
`_combine_description` return the old description unchanged rather than
raising (the trailing `else` at wizard.py 2588-2589). -/
theorem combine_unknown_policy_claim (old new handling : String)
    (hnew : new ≠ "")
    (h1 : handling ≠ DH_APPEND) (h2 : handling ≠ DH_PREPEND)
    (h3 : handling ≠ DH_REPLACE) :
    combine_description old new handling = old := by
  simp [combine_description, hnew, h1, h2, h3]

/-- Witness for C10 at a concrete unknown policy literal. -/
theorem combine_unknown_policy_claim_witness :
    combine_description "Existing text." "New text." "KEEP" = "Existing text." :=
  combine_unknown_policy_claim "Existing text." "New text." "KEEP"
    (by decide) (by decide) (by decide) (by decide)

/-- Behaviour of `_update_table_draft_description` on an existing draft
aspect: `contents`, `generation-date` and `to-be-regenerated` receive the new
values, every other binding (in particular `human-comments` and
`negative-examples`) is unchanged, and the overview / BigQuery parts of the
state are untouched. -/
theorem update_draft_spec (now desc : String) (st : EntryState)
    (old : AspectData) (h : st.draftAspect = some old) :
    ∃ m, (update_table_draft_description now desc st).draftAspect = some m ∧
      getKey m "contents" = some (JValue.s desc) ∧
      getKey m "generation-date" = some (JValue.s now) ∧
      getKey m "to-be-regenerated" = some (JValue.s "false") ∧
      (∀ k, k ≠ "contents" → k ≠ "generation-date" → k ≠ "to-be-regenerated" →
        getKey m k = getKey old k) ∧
      (update_table_draft_description now desc st).overviewContent =
        st.overviewContent ∧
      (update_table_draft_description now desc st).bqDescription =
        st.bqDescription := by
  obtain ⟨da, ov, bq⟩ := st
  simp only at h
  subst h
  refine ⟨updateMap old
    [("contents", JValue.s desc),
     ("generation-date", JValue.s now),
     ("to-be-regenerated", JValue.s "false")], rfl, ?_, ?_, ?_, ?_, rfl, rfl⟩
  · show getKey (setKey (setKey (setKey old "contents" (JValue.s desc))
      "generation-date" (JValue.s now)) "to-be-regenerated" (JValue.s "false"))
      "contents" = some (JValue.s desc)
    rw [getKey_setKey_ne _ _ _ _ (by decide), getKey_setKey_ne _ _ _ _ (by decide),
      getKey_setKey_self]
  · show getKey (setKey (setKey (setKey old "contents" (JValue.s desc))
      "generation-date" (JValue.s now)) "to-be-regenerated" (JValue.s "false"))
      "generation-date" = some (JValue.s now)
    rw [getKey_setKey_ne _ _ _ _ (by decide), getKey_setKey_self]
  · show getKey (setKey (setKey (setKey old "contents" (JValue.s desc))
      "generation-date" (JValue.s now)) "to-be-regenerated" (JValue.s "false"))
      "to-be-regenerated" = some (JValue.s "false")
    rw [getKey_setKey_self]
  · intro k h1 h2 h3
    show getKey (setKey (setKey (setKey old "contents" (JValue.s desc))
      "generation-date" (JValue.s now)) "to-be-regenerated" (JValue.s "false"))
      k = getKey old k
    rw [getKey_setKey_ne _ _ _ _ h3, getKey_setKey_ne _ _ _ _ h2,
      getKey_setKey_ne _ _ _ _ h1]

/-! ## Claim C7 -/

/-- C7: writing a new draft description over an existing draft aspect
(`_update_table_draft_description`, wizard.py 2144-2155) changes only the
`contents`, `generation-date` and `to-be-regenerated` fields; the
`human-comments` and `negative-examples` lists and every other aspect field
keep their previous bindings, so comments survive every regeneration. -/
theorem draft_update_frame_claim (now desc : String) (st : EntryState)
    (old : AspectData) (h : st.draftAspect = some old) :
    ∃ m, (update_table_draft_description now desc st).draftAspect = some m ∧
      getKey m "contents" = some (JValue.s desc) ∧
      getKey m "generation-date" = some (JValue.s now) ∧
      getKey m "to-be-regenerated" = some (JValue.s "false") ∧
      getKey m "human-comments" = getKey old "human-comments" ∧
      getKey m "negative-examples" = getKey old "negative-examples" ∧
      (∀ k, k ≠ "contents" → k ≠ "generation-date" → k ≠ "to-be-regenerated" →
        getKey m k = getKey old k) := by
  obtain ⟨m, hm, hc, hg, ht, hframe, _, _⟩ := update_draft_spec now desc st old h
  exact ⟨m, hm, hc, hg, ht,
    hframe "human-comments" (by decide) (by decide) (by decide),
    hframe "negative-examples" (by decide) (by decide) (by decide), hframe⟩

/-- Witness for C7: on a concrete aspect, the human comment recorded before
regeneration is still present afterwards. -/
theorem draft_update_frame_claim_witness :
    ∃ m, (update_table_draft_description "2024-02-02T00:00:00Z" "New draft."
        ⟨some [("contents", JValue.s "Old draft."),
               ("human-comments", JValue.arr [JValue.s "keep me"]),
               ("negative-examples", JValue.arr [])],
         none, none⟩).draftAspect = some m ∧
      getKey m "human-comments" = some (JValue.arr [JValue.s "keep me"]) := by
  obtain ⟨m, hm, _, _, _, hcomments, _, _⟩ :=
    draft_update_frame_claim "2024-02-02T00:00:00Z" "New draft."
      ⟨some [("contents", JValue.s "Old draft."),
             ("human-comments", JValue.arr [JValue.s "keep me"]),
             ("negative-examples", JValue.arr [])], none, none⟩
      [("contents", JValue.s "Old draft."),
       ("human-comments", JValue.arr [JValue.s "keep me"]),
       ("negative-examples", JValue.arr [])] rfl
  exact ⟨m, hm, hcomments.trans rfl⟩

/-! ## Claim C3 -/

/-- C3 counterexample: on an entry with no draft aspect,
`mark_table_for_regeneration` does not fail with a NotFoundError as the claim
states — it returns `False` and leaves the state unchanged (wizard.py
3008-3010; the catch-all `except` at 3028-3030 turns even raised errors into
a `False` return). -/
theorem mark_regen_counterexample :
    mark_table_for_regeneration "2024-03-03T12:00:00Z" ⟨none, none, none⟩ =
      (false, ⟨none, none, none⟩) := rfl

/-- C3 (amended): when no draft aspect exists,
`mark_table_for_regeneration` returns `False` (no error is raised) and
changes nothing; when the aspect exists it returns `True`, sets
`to-be-regenerated` to `True` and refreshes `generation-date`, leaving every
other field unchanged; applying it twice with the same timestamp yields the
same aspect state as applying it once. -/
theorem mark_regen_amended (now : String) (st : EntryState) :
    (st.draftAspect = none → mark_table_for_regeneration now st = (false, st)) ∧
    (∀ old, st.draftAspect = some old →
      (mark_table_for_regeneration now st).1 = true ∧
      ∃ m, (mark_table_for_regeneration now st).2.draftAspect = some m ∧
        getKey m "to-be-regenerated" = some (JValue.b true) ∧
        getKey m "generation-date" = some (JValue.s now) ∧
        (∀ k, k ≠ "to-be-regenerated" → k ≠ "generation-date" →
          getKey m k = getKey old k)) ∧
    (mark_table_for_regeneration now
        (mark_table_for_regeneration now st).2).2 =
      (mark_table_for_regeneration now st).2 := by
  obtain ⟨da, ov, bq⟩ := st
  cases da with
  | none => exact ⟨fun _ => rfl, fun old h => by simp at h, rfl⟩
  | some old =>
    refine ⟨fun h => by simp at h, ?_, ?_⟩
    · intro o h
      simp only [Option.some.injEq] at h
      obtain rfl := h
      refine ⟨rfl, updateMap old
        [("to-be-regenerated", JValue.b true),
         ("generation-date", JValue.s now)], rfl, ?_, ?_, ?_⟩
      · show getKey (setKey (setKey old "to-be-regenerated" (JValue.b true))
          "generation-date" (JValue.s now)) "to-be-regenerated" =
          some (JValue.b true)
        rw [getKey_setKey_ne _ _ _ _ (by decide), getKey_setKey_self]
      · show getKey (setKey (setKey old "to-be-regenerated" (JValue.b true))
          "generation-date" (JValue.s now)) "generation-date" =
          some (JValue.s now)
        rw [getKey_setKey_self]
      · intro k h1 h2
        show getKey (setKey (setKey old "to-be-regenerated" (JValue.b true))
          "generation-date" (JValue.s now)) k = getKey old k
        rw [getKey_setKey_ne _ _ _ _ h2, getKey_setKey_ne _ _ _ _ h1]
    · have hR : getKey (setKey (setKey old "to-be-regenerated" (JValue.b true))
          "generation-date" (JValue.s now)) "to-be-regenerated" =
          some (JValue.b true) := by
        rw [getKey_setKey_ne _ _ _ _ (by decide), getKey_setKey_self]
      have h1 : setKey (setKey (setKey old "to-be-regenerated" (JValue.b true))
          "generation-date" (JValue.s now)) "to-be-regenerated" (JValue.b true) =
          setKey (setKey old "to-be-regenerated" (JValue.b true))
            "generation-date" (JValue.s now) := setKey_already _ _ _ hR
      have h2 : updateMap (updateMap old
          [("to-be-regenerated", JValue.b true),
           ("generation-date", JValue.s now)])
          [("to-be-regenerated", JValue.b true),
           ("generation-date", JValue.s now)] =
          updateMap old
          [("to-be-regenerated", JValue.b true),
           ("generation-date", JValue.s now)] := by
        show setKey (setKey (setKey (setKey old "to-be-regenerated"
          (JValue.b true)) "generation-date" (JValue.s now))
          "to-be-regenerated" (JValue.b true)) "generation-date" (JValue.s now) =
          setKey (setKey old "to-be-regenerated" (JValue.b true))
            "generation-date" (JValue.s now)
        rw [h1, setKey_already _ _ _ (getKey_setKey_self _ _ _)]
      show (⟨some (updateMap (updateMap old
          [("to-be-regenerated", JValue.b true),
           ("generation-date", JValue.s now)])
          [("to-be-regenerated", JValue.b true),
           ("generation-date", JValue.s now)]), ov, bq⟩ : EntryState) =
        ⟨some (updateMap old
          [("to-be-regenerated", JValue.b true),
           ("generation-date", JValue.s now)]), ov, bq⟩
      rw [h2]

/-- Witness for C3 (amended): the missing-aspect branch and double
application at a concrete state. -/
theorem mark_regen_amended_witness :
    mark_table_for_regeneration "2024-03-03T12:00:00Z"
        ⟨none, none, some "d"⟩ = (false, ⟨none, none, some "d"⟩) ∧
    (mark_table_for_regeneration "2024-03-03T12:00:00Z"
        (mark_table_for_regeneration "2024-03-03T12:00:00Z"
          ⟨some [("contents", JValue.s "x")], none, none⟩).2).2 =
      (mark_table_for_regeneration "2024-03-03T12:00:00Z"
        ⟨some [("contents", JValue.s "x")], none, none⟩).2 :=
  ⟨(mark_regen_amended "2024-03-03T12:00:00Z" ⟨none, none, some "d"⟩).1 rfl,
   (mark_regen_amended "2024-03-03T12:00:00Z"
     ⟨some [("contents", JValue.s "x")], none, none⟩).2.2⟩

/-! ## Claim C2 -/

/-- C2 counterexample: an entity whose draft aspect exists with
`to-be-regenerated == "false"`, processed by `generate_table_description`
with regeneration not requested (`regenerate := false`, the default options),
is NOT a no-op: the draft contents are overwritten with the newly generated
text and the generation date is refreshed (wizard.py 455-545 contains no
skip; the contents after differ from the contents before). -/
theorem generate_noop_counterexample :
    (generate_table_description { stage_for_review := true } "New text"
        "2024-01-02T00:00:00Z"
        ⟨some [("certified", JValue.s "false"),
               ("contents", JValue.s "Old draft."),
               ("generation-date", JValue.s "2024-01-01T00:00:00Z"),
               ("to-be-regenerated", JValue.s "false"),
               ("human-comments", JValue.arr [])],
         none, none⟩).2.draftAspect =
      some [("certified", JValue.s "false"),
            ("contents", JValue.s "===AI generated description===New text"),
            ("generation-date", JValue.s "2024-01-02T00:00:00Z"),
            ("to-be-regenerated", JValue.s "false"),
            ("human-comments", JValue.arr [])] ∧
    ("===AI generated description===New text" : String) ≠ "Old draft." :=
  ⟨rfl, by decide⟩

/-- C2 (amended): for every entity whose draft aspect already exists,
`generate_table_description` in staging mode always generates: it returns the
constant success string and overwrites `contents` with the newly generated
text (with the AI warning prepended when configured), sets `generation-date`
to now and `to-be-regenerated` to `"false"`, regardless of the current
`to-be-regenerated` value; all other aspect fields are preserved. -/
theorem generate_overwrites_amended (opts : ClientOptions)
    (llmText now : String) (st : EntryState) (old : AspectData)
    (hstage : opts.stage_for_review = true)
    (h : st.draftAspect = some old) :
    (generate_table_description opts llmText now st).1 =
      "Table description generated successfully" ∧
    ∃ m, (generate_table_description opts llmText now st).2.draftAspect =
        some m ∧
      getKey m "contents" = some (JValue.s
        (if opts.add_ai_warning then AI_WARNING ++ llmText else llmText)) ∧
      getKey m "generation-date" = some (JValue.s now) ∧
      getKey m "to-be-regenerated" = some (JValue.s "false") ∧
      (∀ k, k ≠ "contents" → k ≠ "generation-date" → k ≠ "to-be-regenerated" →
        getKey m k = getKey old k) := by
  have hgen : generate_table_description opts llmText now st =
      ("Table description generated successfully",
       update_table_draft_description now
         (if opts.add_ai_warning then AI_WARNING ++ llmText else llmText) st) := by
    simp [generate_table_description, hstage]
  obtain ⟨m, hm, hc, hg, ht, hframe, _, _⟩ := update_draft_spec now
    (if opts.add_ai_warning then AI_WARNING ++ llmText else llmText) st old h
  rw [hgen]
  exact ⟨rfl, m, hm, hc, hg, ht, hframe⟩

/-- Witness for C2 (amended) at a concrete state. -/
theorem generate_overwrites_amended_witness :
    (generate_table_description { stage_for_review := true } "New text"
        "2024-01-02T00:00:00Z"
        ⟨some [("contents", JValue.s "Old draft."),
               ("to-be-regenerated", JValue.s "false")],
         none, none⟩).1 = "Table description generated successfully" ∧
    ∃ m, (generate_table_description { stage_for_review := true } "New text"
        "2024-01-02T00:00:00Z"
        ⟨some [("contents", JValue.s "Old draft."),
               ("to-be-regenerated", JValue.s "false")],
         none, none⟩).2.draftAspect = some m ∧
      getKey m "contents" =
        some (JValue.s "===AI generated description===New text") := by
  obtain ⟨hret, m, hm, hc, _, _, _⟩ := generate_overwrites_amended
    { stage_for_review := true } "New text" "2024-01-02T00:00:00Z"
    ⟨some [("contents", JValue.s "Old draft."),
           ("to-be-regenerated", JValue.s "false")], none, none⟩
    [("contents", JValue.s "Old draft."),
     ("to-be-regenerated", JValue.s "false")] rfl rfl
  exact ⟨hret, m, hm, hc.trans rfl⟩

/-! ## Claim C1 -/

/-- C1 counterexample: accepting a draft via
`accept_table_draft_description` (wizard.py 1425-1463) does NOT set the
aspect flag `certified` to true, nor `to-be-regenerated` to false: the
draft aspect is returned to the state completely unchanged (still
`certified = "false"`, still `to-be-regenerated = "true"`); only the overview
and the BigQuery description are rewritten. -/
theorem accept_draft_counterexample :
    accept_table_draft_description DH_APPEND
        ⟨some [("certified", JValue.s "false"),
               ("contents", JValue.s "Draft text."),
               ("to-be-regenerated", JValue.s "true")],
         some "Overview.", some "Canonical."⟩ =
      some ⟨some [("certified", JValue.s "false"),
                  ("contents", JValue.s "Draft text."),
                  ("to-be-regenerated", JValue.s "true")],
            some "Overview.Draft text.", some "Canonical.Draft text."⟩ ∧
    ("false" : String) ≠ "true" :=
  ⟨rfl, by decide⟩

/-- C1 (amended): for every entity with an existing draft aspect whose
`contents` is the draft text `c`, `accept_table_draft_description` leaves the
draft aspect unchanged (in particular `certified` and `to-be-regenerated`
keep their previous values), and sets the BigQuery table description to
`_combine_description(oldCanonical, c, handling)` — which is
`merge(oldCanonical, draftContents, APPEND)` when the configured description
handling is APPEND, the default — likewise merging `c` into the Dataplex
overview aspect. -/
theorem accept_draft_amended (handling : String) (st : EntryState)
    (old : AspectData) (c : String)
    (h : st.draftAspect = some old)
    (hc : getKey old "contents" = some (JValue.s c)) :
    ∃ st2, accept_table_draft_description handling st = some st2 ∧
      st2.draftAspect = st.draftAspect ∧
      st2.bqDescription =
        some (combine_description (st.bqDescription.getD "") c handling) ∧
      (st.overviewContent = none → st2.overviewContent = some c) ∧
      (∀ o, st.overviewContent = some o →
        st2.overviewContent = some (combine_description o c handling)) := by
  obtain ⟨da, ov, bq⟩ := st
  simp only at h
  subst h
  cases ov with
  | none =>
    have hacc : accept_table_draft_description handling ⟨some old, none, bq⟩ =
        some ⟨some old, some c,
          some (combine_description (bq.getD "") c handling)⟩ := by
      simp [accept_table_draft_description, hc,
        update_table_dataplex_description, update_table_bq_description]
    exact ⟨_, hacc, rfl, rfl, fun _ => rfl, fun o ho => by simp at ho⟩
  | some o =>
    have hacc : accept_table_draft_description handling ⟨some old, some o, bq⟩ =
        some ⟨some old, some (combine_description o c handling),
          some (combine_description (bq.getD "") c handling)⟩ := by
      simp [accept_table_draft_description, hc,
        update_table_dataplex_description, update_table_bq_description]
    refine ⟨_, hacc, rfl, rfl, fun hnone => by simp at hnone, fun o2 ho => ?_⟩
    simp only [Option.some.injEq] at ho
    subst ho
    rfl

/-- Witness for C1 (amended) at a concrete state with APPEND handling. -/
theorem accept_draft_amended_witness :
    ∃ st2, accept_table_draft_description DH_APPEND
        ⟨some [("contents", JValue.s "Body.")], none, some "Canon."⟩ =
        some st2 ∧
      st2.draftAspect = some [("contents", JValue.s "Body.")] ∧
      st2.bqDescription = some "Canon.Body." := by
  obtain ⟨st2, h1, h2, h3, h4, _⟩ := accept_draft_amended DH_APPEND
    ⟨some [("contents", JValue.s "Body.")], none, some "Canon."⟩
    [("contents", JValue.s "Body.")] "Body." rfl rfl
  exact ⟨st2, h1, h2.trans rfl, h3.trans (by decide)⟩

/-! ## Retry-loop lemmas -/

/-- If every attempt from `attempt` through `attempt + fuel` fails, the loop
returns the outcome of the final attempt after sleeping
`base * 2 ^ j` for each non-final attempt `j`. -/
theorem llmGo_allfail (call : Nat → Except String String) :
    ∀ fuel attempt,
      (∀ j, attempt ≤ j → j ≤ attempt + fuel → ∃ e, call j = Except.error e) →
      llmGo call attempt fuel =
        (call (attempt + fuel),
         (List.range' attempt fuel).map fun j => llmBaseDelay * 2 ^ j) := by
  intro fuel
  induction fuel with
  | zero =>
    intro attempt h
    obtain ⟨e, he⟩ := h attempt le_rfl (by omega)
    simp [llmGo, he]
  | succ fuel ih =>
    intro attempt h
    obtain ⟨e, he⟩ := h attempt le_rfl (by omega)
    have hrec := ih (attempt + 1) (fun j hj1 hj2 => h j (by omega) (by omega))
    simp only [llmGo, he]
    rw [hrec]
    simp only [List.range'_succ]
    refine congrArg (fun z => (call z, _)) ?_
    omega

/-- If attempt `k` succeeds and every earlier attempt (from `attempt` on)
fails, the loop stops at `k` with the successful text, having slept once per
failed attempt. -/
theorem llmGo_success (call : Nat → Except String String) (text : String) :
    ∀ fuel attempt k, attempt ≤ k → k ≤ attempt + fuel →
      call k = Except.ok text →
      (∀ j, attempt ≤ j → j < k → ∃ e, call j = Except.error e) →
      llmGo call attempt fuel =
        (Except.ok text,
         (List.range' attempt (k - attempt)).map fun j => llmBaseDelay * 2 ^ j) := by
  intro fuel
  induction fuel with
  | zero =>
    intro attempt k h1 h2 hk hfail
    have : k = attempt := by omega
    subst this
    simp [llmGo, hk]
  | succ fuel ih =>
    intro attempt k h1 h2 hk hfail
    by_cases hek : attempt = k
    · subst hek
      simp [llmGo, hk]
    · obtain ⟨e, he⟩ := hfail attempt le_rfl (by omega)
      have hrec := ih (attempt + 1) k (by omega) (by omega) hk
        (fun j hj1 hj2 => hfail j (by omega) hj2)
      simp only [llmGo, he]
      rw [hrec]
      have hk2 : k - attempt = (k - (attempt + 1)) + 1 := by omega
      rw [hk2, List.range'_succ]
      simp

/-! ## Claim C8 -/

/-- C8: `_llm_inference` (wizard.py 1334-1381) retries a failed
text-generation call up to 3 further times — at most `llmRetries + 1 = 4`
attempts in total — sleeping `base_delay * 2 ** attempt` between attempts;
a success on any attempt `k ≤ 3` returns the text of that attempt immediately
(no further calls, exactly `k` sleeps), and if all 4 attempts fail the error
of the final attempt (`call 3`) is raised to the caller. -/
theorem llm_retry_claim :
    (∀ (call : Nat → Except String String) (k : Nat) (text : String),
      k ≤ llmRetries →
      (∀ j, j < k → ∃ e, call j = Except.error e) →
      call k = Except.ok text →
      llm_inference call =
        (Except.ok text, (List.range k).map fun j => llmBaseDelay * 2 ^ j)) ∧
    (∀ call : Nat → Except String String,
      (∀ j, j ≤ llmRetries → ∃ e, call j = Except.error e) →
      llm_inference call =
        (call llmRetries,
         (List.range llmRetries).map fun j => llmBaseDelay * 2 ^ j)) := by
  constructor
  · intro call k text hk hfail hok
    have h := llmGo_success call text llmRetries 0 k (Nat.zero_le k)
      (by omega) hok (fun j _ hj => hfail j hj)
    rw [llm_inference, h, List.range_eq_range']
    simp
  · intro call hfail
    have h := llmGo_allfail call llmRetries 0
      (fun j hj1 hj2 => hfail j (by omega))
    rw [llm_inference, h, List.range_eq_range']
    simp

/-- Witness for C8: a call that fails twice then succeeds returns the
text of the third attempt after sleeping 1 and 2 seconds; a call that always
fails surfaces the final error after sleeping 1, 2 and 4 seconds. -/
theorem llm_retry_claim_witness :
    llm_inference (fun j => if j < 2 then Except.error "boom"
        else Except.ok "generated text") =
      (Except.ok "generated text", [1, 2]) ∧
    llm_inference (fun _ => Except.error "unavailable") =
      (Except.error "unavailable", [1, 2, 4]) := by
  constructor
  · have h := llm_retry_claim.1
      (fun j => if j < 2 then Except.error "boom" else Except.ok "generated text")
      2 "generated text" (by decide)
      (fun j hj => ⟨"boom", by simp [hj]⟩) (by simp)
    rw [h]
    rfl
  · have h := llm_retry_claim.2 (fun _ => Except.error "unavailable")
      (fun j _ => ⟨"unavailable", rfl⟩)
    rw [h]
    rfl

/-! ## Substring lemmas -/

theorem leadMatch_append_self (pat r : List Char) :
    leadMatch pat (pat ++ r) = true := by
  induction pat with
  | nil => rfl
  | cons p ps ih => simp [leadMatch, ih]

theorem containsSub_of_leadMatch (pat s : List Char)
    (h : leadMatch pat s = true) : containsSub pat s = true := by
  cases s <;> simp [containsSub, subIdx, h]

theorem containsSub_cons (pat : List Char) (c : Char) (l : List Char)
    (h : containsSub pat l = true) : containsSub pat (c :: l) = true := by
  by_cases hm : leadMatch pat (c :: l) = true
  · exact containsSub_of_leadMatch _ _ hm
  · obtain ⟨i, hi⟩ := Option.isSome_iff_exists.mp h
    simp [containsSub, subIdx, hm, hi]

theorem containsSub_append_right (l pat s : List Char)
    (h : containsSub pat s = true) : containsSub pat (l ++ s) = true := by
  induction l with
  | nil => exact h
  | cons c cs ih => exact containsSub_cons _ _ _ ih

/-! ## Claim C5 -/

/-- C5: for a batch run with strategy DOCUMENTED in initial mode
(wizard.py 321-328 / table_operations.py 91-97): a mapping row whose table is
not in the discovered list aborts with a `ValueError` whose message names
that table, processing exactly the mapping rows before it (so nothing after
the bad row is processed); and when every mapping row is present, exactly the
entries of the mapping are processed, in mapping order. -/
theorem documented_initial_claim :
    (∀ (dataset_fqn : String) (tables : List String)
        (pre : List (String × String)) (t u : String)
        (rest : List (String × String)),
      (∀ p ∈ pre, tables.contains p.1 = true) →
      tables.contains t = false →
      documented_initial dataset_fqn tables (pre ++ (t, u) :: rest) =
        (pre, some (documentedMissingMsg dataset_fqn t u)) ∧
      containsSub t.data (documentedMissingMsg dataset_fqn t u).data = true) ∧
    (∀ (dataset_fqn : String) (tables : List String)
        (mapping : List (String × String)),
      (∀ p ∈ mapping, tables.contains p.1 = true) →
      documented_initial dataset_fqn tables mapping = (mapping, none)) := by
  constructor
  · intro dataset_fqn tables pre t u rest hpre hmiss
    constructor
    · have hmiss2 : t ∉ tables := by simpa using hmiss
      induction pre with
      | nil => simp [documented_initial, hmiss2]
      | cons p ps ih =>
        obtain ⟨t1, u1⟩ := p
        have h1 : t1 ∈ tables := by simpa using hpre (t1, u1) (by simp)
        have h2 := ih (fun q hq => hpre q (by simp [hq]))
        simp [documented_initial, h1, h2]
    · show containsSub t.data (documentedMissingMsg dataset_fqn t u).data = true
      simp only [documentedMissingMsg, pyReprPair, strData_append, strMk_data,
        List.append_assoc, List.cons_append, List.nil_append,
        String.singleton]
      repeat
        first
        | exact containsSub_of_leadMatch _ _ (leadMatch_append_self _ _)
        | apply containsSub_cons
        | apply containsSub_append_right
  · intro dataset_fqn tables mapping h
    induction mapping with
    | nil => rfl
    | cons p ps ih =>
      obtain ⟨t1, u1⟩ := p
      have h1 : t1 ∈ tables := by simpa using h (t1, u1) (by simp)
      have h2 := ih (fun q hq => h q (by simp [hq]))
      simp [documented_initial, h1, h2]

/-- Witness for C5, instantiating the examples of the spec: mapping
`(t9, uri9)` against discovered `[t1, t2]` processes nothing and raises a
message naming `t9`; mapping `(t1, uri1)` succeeds exactly for `t1`. -/
theorem documented_initial_claim_witness :
    documented_initial "proj.ds" ["proj.ds.t1", "proj.ds.t2"]
        [("proj.ds.t9", "uri9")] =
      ([], some (documentedMissingMsg "proj.ds" "proj.ds.t9" "uri9")) ∧
    containsSub "proj.ds.t9".data
      (documentedMissingMsg "proj.ds" "proj.ds.t9" "uri9").data = true ∧
    documented_initial "proj.ds" ["proj.ds.t1", "proj.ds.t2"]
        [("proj.ds.t1", "uri1")] =
      ([("proj.ds.t1", "uri1")], none) := by
  have h1 := documented_initial_claim.1 "proj.ds" ["proj.ds.t1", "proj.ds.t2"]
    [] "proj.ds.t9" "uri9" [] (by simp) (by decide)
  have h2 := documented_initial_claim.2 "proj.ds" ["proj.ds.t1", "proj.ds.t2"]
    [("proj.ds.t1", "uri1")] (by decide)
  exact ⟨h1.1, h1.2, h2⟩

/-! ## Lexicographic-order lemmas -/

theorem lexLe_total : ∀ a b : List Char, (lexLe a b || lexLe b a) = true := by
  intro a
  induction a with
  | nil => intro b; simp [lexLe]
  | cons x xs ih =>
    intro b
    cases b with
    | nil => simp [lexLe]
    | cons y ys =>
      by_cases h1 : x.toNat < y.toNat
      · simp [lexLe, h1]
      · by_cases h2 : y.toNat < x.toNat
        · simp [lexLe, h1, h2]
        · simpa [lexLe, h1, h2] using ih ys

theorem lexLe_trans : ∀ a b c : List Char,
    lexLe a b = true → lexLe b c = true → lexLe a c = true := by
  intro a
  induction a with
  | nil => intro b c _ _; simp [lexLe]
  | cons x xs ih =>
    intro b c hab hbc
    cases b with
    | nil => simp [lexLe] at hab
    | cons y ys =>
      cases c with
      | nil => simp [lexLe] at hbc
      | cons z zs =>
        by_cases h1 : x.toNat < y.toNat
        · by_cases h2 : y.toNat < z.toNat
          · simp [lexLe, show x.toNat < z.toNat by omega]
          · by_cases h3 : z.toNat < y.toNat
            · simp [lexLe, h2, h3] at hbc
            · simp [lexLe, show x.toNat < z.toNat by omega]
        · by_cases h4 : y.toNat < x.toNat
          · simp [lexLe, h1, h4] at hab
          · have hxy : x.toNat = y.toNat := by omega
            by_cases h2 : y.toNat < z.toNat
            · simp [lexLe, show x.toNat < z.toNat by omega]
            · by_cases h3 : z.toNat < y.toNat
              · simp [lexLe, h2, h3] at hbc
              · have hyz : y.toNat = z.toNat := by omega
                simp only [lexLe, h1, h4, if_false, ite_false] at hab
                simp only [lexLe, h2, h3, if_false, ite_false] at hbc
                simp only [lexLe, show ¬x.toNat < z.toNat by omega,
                  show ¬z.toNat < x.toNat by omega, if_false, ite_false]
                exact ih ys zs hab hbc

theorem lexLe_antisymm : ∀ a b : List Char,
    lexLe a b = true → lexLe b a = true → a = b := by
  intro a
  induction a with
  | nil =>
    intro b _ hba
    cases b with
    | nil => rfl
    | cons y ys => simp [lexLe] at hba
  | cons x xs ih =>
    intro b hab hba
    cases b with
    | nil => simp [lexLe] at hab
    | cons y ys =>
      by_cases h1 : x.toNat < y.toNat
      · simp [lexLe, h1, show ¬y.toNat < x.toNat by omega] at hba
      · by_cases h2 : y.toNat < x.toNat
        · simp [lexLe, h1, h2] at hab
        · have hxy : x.toNat = y.toNat := by omega
          have hx : x = y := Char.ext (UInt32.ext hxy)
          subst hx
          simp only [lexLe, h1, h2, if_false, ite_false] at hab hba
          rw [ih ys hab hba]

theorem strLe_trans (a b c : String) (hab : strLe a b = true)
    (hbc : strLe b c = true) : strLe a c = true :=
  lexLe_trans a.data b.data c.data hab hbc

theorem strLe_total (a b : String) : (strLe a b || strLe b a) = true :=
  lexLe_total a.data b.data

theorem strLe_antisymm (a b : String) (hab : strLe a b = true)
    (hba : strLe b a = true) : a = b :=
  String.ext (lexLe_antisymm a.data b.data hab hba)

/-! ## Claim C6 -/

/-- C6: `_order_tables_to_strategy` with strategy NAIVE returns the
discovered list in its given order; with strategy ALPHABETICAL it returns
the lexicographic sort of the list (by fully-qualified name, Python
`sorted`): a permutation of the input, sorted under the code-point
lexicographic order, and the unique such list. -/
theorem order_strategy_claim (shuffle : List String → List String)
    (tables : List String) :
    order_tables_to_strategy shuffle tables GenerationStrategy.NAIVE = tables ∧
    (order_tables_to_strategy shuffle tables
      GenerationStrategy.ALPHABETICAL).Perm tables ∧
    List.Sorted (fun a b => strLe a b = true)
      (order_tables_to_strategy shuffle tables
        GenerationStrategy.ALPHABETICAL) ∧
    (∀ M : List String, M.Perm tables →
      List.Sorted (fun a b => strLe a b = true) M →
      M = order_tables_to_strategy shuffle tables
        GenerationStrategy.ALPHABETICAL) := by
  have hord : order_tables_to_strategy shuffle tables
      GenerationStrategy.ALPHABETICAL = tables.mergeSort strLe := by
    simp [order_tables_to_strategy]
  have hsorted : List.Sorted (fun a b => strLe a b = true)
      (tables.mergeSort strLe) :=
    List.sorted_mergeSort strLe_trans strLe_total tables
  refine ⟨rfl, ?_, ?_, ?_⟩
  · rw [hord]
    exact List.mergeSort_perm tables strLe
  · rw [hord]
    exact hsorted
  · intro M hperm hMsorted
    haveI : IsAntisymm String (fun a b => strLe a b = true) :=
      ⟨fun a b => strLe_antisymm a b⟩
    rw [hord]
    exact List.eq_of_perm_of_sorted
      (hperm.trans (List.mergeSort_perm tables strLe).symm) hMsorted hsorted

/-- Witness for C6, instantiating the examples of the spec
`ALPHABETICAL([t3,t1,t2]) == [t1,t2,t3]` and `NAIVE([t1,t2,t3]) == [t1,t2,t3]`. -/
theorem order_strategy_claim_witness :
    order_tables_to_strategy (fun l => l)
        ["proj.ds.t3", "proj.ds.t1", "proj.ds.t2"]
        GenerationStrategy.ALPHABETICAL =
      ["proj.ds.t1", "proj.ds.t2", "proj.ds.t3"] ∧
    order_tables_to_strategy (fun l => l)
        ["proj.ds.t1", "proj.ds.t2", "proj.ds.t3"]
        GenerationStrategy.NAIVE =
      ["proj.ds.t1", "proj.ds.t2", "proj.ds.t3"] := by
  constructor
  · exact ((order_strategy_claim (fun l => l)
      ["proj.ds.t3", "proj.ds.t1", "proj.ds.t2"]).2.2.2
      ["proj.ds.t1", "proj.ds.t2", "proj.ds.t3"]
      (by decide) (by decide)).symm
  · exact (order_strategy_claim (fun l => l)
      ["proj.ds.t1", "proj.ds.t2", "proj.ds.t3"]).1

/-! ## Occurrence-counting lemmas -/

/-- Lemma: `subIdx` returns the index of the first occurrence: the pattern
matches
there and at no earlier index. -/
theorem subIdx_some_spec (pat : List Char) :
    ∀ (s : List Char) (i : Nat), subIdx pat s = some i →
      leadMatch pat (s.drop i) = true ∧
      ∀ j, j < i → leadMatch pat (s.drop j) = false := by
  intro s
  induction s with
  | nil =>
    intro i h
    by_cases hm : leadMatch pat [] = true
    · simp only [subIdx, hm, if_pos, Option.some.injEq] at h
      subst h
      exact ⟨hm, fun j hj => absurd hj (by omega)⟩
    · simp [subIdx, hm] at h
  | cons c cs ih =>
    intro i h
    by_cases hm : leadMatch pat (c :: cs) = true
    · simp only [subIdx, hm, if_pos, Option.some.injEq] at h
      subst h
      exact ⟨hm, fun j hj => absurd hj (by omega)⟩
    · rw [show subIdx pat (c :: cs) =
          (subIdx pat cs).map (· + 1) by simp [subIdx, hm]] at h
      rw [Option.map_eq_some'] at h
      obtain ⟨i2, hi2, rfl⟩ := h
      obtain ⟨hmatch, hmin⟩ := ih i2 hi2
      refine ⟨by simpa using hmatch, ?_⟩
      intro j hj
      cases j with
      | zero => simpa using hm
      | succ j2 => simpa using hmin j2 (by omega)

/-- Appending after a straddle-free boundary does not create or destroy
occurrences: counting over `A ++ Z` equals counting over `Z` when no
occurrence starts inside `A`. -/
theorem countOccur_append_of_noStraddle (pat Z : List Char) :
    ∀ A : List Char,
      (∀ u, u <:+ A → u ≠ [] → leadMatch pat (u ++ Z) = false) →
      countOccur pat (A ++ Z) = countOccur pat Z := by
  intro A
  induction A with
  | nil => intro _; rfl
  | cons c cs ih =>
    intro h
    have h0 : leadMatch pat ((c :: cs) ++ Z) = false :=
      h (c :: cs) (List.suffix_refl _) (by simp)
    have ih2 := ih (fun u hu hne => h u (hu.trans (List.suffix_cons c cs)) hne)
    simp only [List.cons_append] at h0 ⊢
    simp only [countOccur, h0, Bool.false_eq_true, if_false, ite_false, ih2,
      Nat.zero_add]

theorem noStraddleB_spec (pat A Z : List Char) (h : noStraddleB pat A Z = true) :
    ∀ u, u <:+ A → u ≠ [] → leadMatch pat (u ++ Z) = false := by
  intro u hu hne
  have h2 := (List.all_eq_true.mp h) u ((List.mem_tails u A).mpr hu)
  simpa [hne] using h2

/-- On non-empty inputs, the APPEND policy produces exactly the kept part of
the old description followed by the new description. -/
theorem combine_append_form (W Z : String) (hZ : Z ≠ "") (hW : W ≠ "") :
    combine_description W Z DH_APPEND = String.mk ((keptOld W).data ++ Z.data) := by
  simp only [combine_description, if_neg hZ, if_pos rfl, if_pos hW, keptOld]
  cases h : subIdx AI_WARNING.data W.data with
  | some i =>
    apply String.ext
    simp [strData_append, strMk_data]
  | none =>
    apply String.ext
    simp [strData_append, strMk_data]

/-- The APPEND policy never returns an empty string from a non-empty new
description. -/
theorem combine_append_ne_empty (X Y : String) (hY : Y ≠ "") :
    combine_description X Y DH_APPEND ≠ "" := by
  have hYd : Y.data ≠ [] := fun h => hY (String.ext h)
  by_cases hX : X = ""
  · subst hX
    have hc : combine_description "" Y DH_APPEND = Y := by
      simp [combine_description, hY]
    rw [hc]
    exact hY
  · rw [combine_append_form X Y hY hX]
    intro he
    rw [strEq_empty_iff, strMk_data] at he
    exact hYd (List.append_eq_nil.mp he).2

/-- A string containing exactly one occurrence of the marker is non-empty. -/
theorem ne_empty_of_countOccurS_one (s : String)
    (h : countOccurS AI_WARNING s = 1) : s ≠ "" := by
  intro he
  rw [he] at h
  exact absurd h (by decide)

/-! ## Claim C4 -/

/-- C4 counterexample: the "at most one disclaimer-tail segment" half of the
claim fails. With `Y = "=" ++ marker` and
`Z = marker[1:] ++ "q" ++ marker` — each containing the marker exactly
once — `combine(combine("", Y, APPEND), Z, APPEND)` equals
`marker ++ "q" ++ marker`, which contains TWO occurrences of the disclaimer
marker: truncation keeps the characters before the first occurrence, and the
kept `"="` fuses with the start of `Z` into a fresh occurrence. -/
theorem combine_append_tail_counterexample :
    countOccurS AI_WARNING "====AI generated description===" = 1 ∧
    countOccurS AI_WARNING
      "==AI generated description===q===AI generated description===" = 1 ∧
    countOccurS AI_WARNING
      (combine_description
        (combine_description "" "====AI generated description===" DH_APPEND)
        "==AI generated description===q===AI generated description==="
        DH_APPEND) = 2 :=
  ⟨by decide, by decide, by decide⟩

/-- C4 (amended): (1) for every `old` containing the disclaimer marker
(first occurrence at index `i`) and non-empty `new`,
`combine(old, new, APPEND)` is `old` truncated at `i` followed by `new`;
(2) if `Y` and `Z` each contain the marker exactly once AND no marker
occurrence straddles the junction between the kept prefix and `Z` — the
condition the counterexample violates — then
`combine(combine(X, Y, APPEND), Z, APPEND)` contains exactly one disclaimer
occurrence. -/
theorem combine_append_tail_amended :
    (∀ (old new : String) (i : Nat), new ≠ "" →
      subIdx AI_WARNING.data old.data = some i →
      combine_description old new DH_APPEND =
        String.mk (old.data.take i) ++ new ∧
      leadMatch AI_WARNING.data (old.data.drop i) = true ∧
      (∀ j, j < i → leadMatch AI_WARNING.data (old.data.drop j) = false)) ∧
    (∀ X Y Z : String,
      countOccurS AI_WARNING Y = 1 →
      countOccurS AI_WARNING Z = 1 →
      noStraddleB AI_WARNING.data
        (keptOld (combine_description X Y DH_APPEND)).data Z.data = true →
      countOccurS AI_WARNING
        (combine_description (combine_description X Y DH_APPEND) Z
          DH_APPEND) = 1) := by
  constructor
  · intro old new i hnew hsub
    have hold : old ≠ "" := by
      intro he
      rw [he] at hsub
      rw [show subIdx AI_WARNING.data ("" : String).data = none from by decide]
        at hsub
      cases hsub
    obtain ⟨hmatch, hmin⟩ := subIdx_some_spec AI_WARNING.data old.data i hsub
    refine ⟨?_, hmatch, hmin⟩
    simp [combine_description, hnew, hold, hsub]
  · intro X Y Z hY hZ hns
    have hYne : Y ≠ "" := ne_empty_of_countOccurS_one Y hY
    have hZne : Z ≠ "" := ne_empty_of_countOccurS_one Z hZ
    have hWne : combine_description X Y DH_APPEND ≠ "" :=
      combine_append_ne_empty X Y hYne
    rw [combine_append_form (combine_description X Y DH_APPEND) Z hZne hWne]
    show countOccur AI_WARNING.data
      (String.mk ((keptOld (combine_description X Y DH_APPEND)).data ++
        Z.data)).data = 1
    rw [strMk_data,
      countOccur_append_of_noStraddle AI_WARNING.data Z.data _
        (noStraddleB_spec _ _ _ hns)]
    exact hZ

/-- Witness for C4 (amended): truncation at a concrete marked string, and a
straddle-free double merge yielding exactly one disclaimer occurrence. -/
theorem combine_append_tail_amended_witness :
    combine_description "x===AI generated description===" "n" DH_APPEND =
      "xn" ∧
    countOccurS AI_WARNING
      (combine_description
        (combine_description "" "===AI generated description===a" DH_APPEND)
        "===AI generated description===b" DH_APPEND) = 1 := by
  constructor
  · have h := (combine_append_tail_amended.1 "x===AI generated description==="
      "n" 1 (by decide) (by decide)).1
    rw [h]
    decide
  · exact combine_append_tail_amended.2 "" "===AI generated description===a"
      "===AI generated description===b" (by decide) (by decide) (by decide)

end Dataplexutils
